import Mathlib

/-
Verification of the bgit commit/status core:
status classification (cmd/status.go, collectStatus),
staged-diff collection (internal/services/commitgen/service.go, GetStagedFilesDiff),
commit-message synthesis with provider fallback (cmd/commit.go) and the
heuristic fallback plus author resolution of the go-git based commit command.
External effects (environment, AI chat endpoints, the git backend) are
modelled as explicit oracle parameters; strings are Lean strings and the
byte-level helpers of the Go standard library are re-implemented on lists
of characters.
-/

namespace Bgit

/-! ## String helpers modelling the Go standard library -/

/-- Model of unicode.IsSpace restricted to the whitespace characters that occur
in the development (Char.isWhitespace covers space, tab, CR, LF). -/
def wsp (c : Char) : Bool := c.isWhitespace

/-- Model of strings.TrimSpace on a character list: drop whitespace from both
ends. -/
def trimChars (l : List Char) : List Char :=
  ((l.dropWhile wsp).reverse.dropWhile wsp).reverse

/-- Model of strings.HasSuffix(s, ">"). -/
def hasSuffixGT (l : List Char) : Bool := l.getLast? = some '>'

/-- Model of strings.TrimSuffix(s, ">"): remove one trailing > if present. -/
def trimSuffixGT (l : List Char) : List Char :=
  if l.getLast? = some '>' then l.dropLast else l

/-- Model of strings.Split(s, "<"): the maximal <-free segments of s,
in order. The result is always non-empty. -/
def splitOnLT : List Char → List (List Char)
  | [] => [[]]
  | c :: rest =>
    match splitOnLT rest with
    | [] => [[]]
    | s :: ss => if c = '<' then [] :: s :: ss else (c :: s) :: ss

/-- Suffix of the character list strictly after its last dot, when a dot
occurs; this mirrors strings.LastIndex(p, ".") followed by slicing. -/
def lastDotSplit : List Char → Option (List Char)
  | [] => none
  | c :: rest =>
    match lastDotSplit rest with
    | some e => some e
    | none => if c = '.' then some rest else none

/-- Extension of a path as computed by basicHeuristicMessage: the substring
after the last dot, none when there is no dot or the last dot is the final
character (dot == len(p)-1 in the Go source). -/
def extOf (p : String) : Option String :=
  match lastDotSplit p.data with
  | none => none
  | some [] => none
  | some e => some (String.mk e)

/-- First index at which pat occurs as a substring of hay, if any. -/
def firstOccIdx (hay pat : List Char) : Option Nat :=
  hay.tails.findIdx? fun t => pat.isPrefixOf t

/-- Whether pat occurs as a substring of s. -/
def hasSubstr (s pat : String) : Bool := (firstOccIdx s.data pat.data).isSome

/-- Whether the first occurrence of a in s is strictly before the first
occurrence of b (false when either is absent). -/
def mentionsBefore (a b s : String) : Bool :=
  match firstOccIdx s.data a.data, firstOccIdx s.data b.data with
  | some i, some j => i < j
  | _, _ => false

/-- Model of firstLine from cmd/helpers: the prefix of s before the first
newline. -/
def firstLine (s : String) : String :=
  String.mk (s.data.takeWhile fun c => c ≠ '\n')

/-! ## The heuristic commit message (basicHeuristicMessage) -/

/-- Occurrence count per extension of the staged paths: the exts map of
basicHeuristicMessage. Paths without a countable extension contribute
nothing. -/
def extCounts (paths : List String) (e : String) : Nat :=
  (paths.filterMap extOf).count e

/-- Legitimate iteration orders of the Go map exts: Go map iteration order is
unspecified, so any duplicate-free enumeration of exactly the keys present
(the extensions with positive count) is a possible execution. -/
def validIterOrder (paths order : List String) : Prop :=
  order.Nodup
    ∧ (∀ e ∈ order, e ∈ paths.filterMap extOf)
    ∧ (∀ e ∈ paths.filterMap extOf, e ∈ order)

instance (paths order : List String) : Decidable (validIterOrder paths order) := by
  unfold validIterOrder; infer_instance

/-- The top list of basicHeuristicMessage: one entry per extension in map
iteration order, then truncated to the first 3 when longer. -/
def heuristicTop (order paths : List String) : List String :=
  let top := (order.filter fun e => 0 < extCounts paths e).map fun e =>
    toString (extCounts paths e) ++ " " ++
      (if 1 < extCounts paths e then e ++ " files" else e ++ " file")
  if 3 < top.length then top.take 3 else top

/-- Model of basicHeuristicMessage, parameterised by the iteration order of
the exts map. -/
def basicHeuristicMessage (order paths : List String) : String :=
  if paths = [] then "chore: empty commit"
  else
    "update " ++ toString paths.length ++ " paths (" ++
      String.intercalate ", " (heuristicTop order paths) ++ ")"

/-! ## Status classification (cmd/status.go, collectStatus) -/

/-- go-git status codes as matched by collectStatus. -/
inductive StatusCode
  | unmodified
  | modified
  | added
  | deleted
  | renamed
  | untracked
deriving DecidableEq, Repr

/-- One raw status entry: a path with its staging (index) and worktree
states. -/
structure PathStatus where
  path : String
  staging : StatusCode
  worktree : StatusCode
deriving DecidableEq, Repr

/-- The six output lists of collectStatus. -/
structure StatusReport where
  staged : List String
  modified : List String
  added : List String
  deleted : List String
  renamed : List String
  untracked : List String
deriving DecidableEq, Repr

/-- Names for the six output lists. -/
inductive ReportField
  | staged
  | modified
  | added
  | deleted
  | renamed
  | untracked
deriving DecidableEq, Repr

/-- Projection of a report at a field. -/
def StatusReport.get (r : StatusReport) : ReportField → List String
  | .staged => r.staged
  | .modified => r.modified
  | .added => r.added
  | .deleted => r.deleted
  | .renamed => r.renamed
  | .untracked => r.untracked

/-- The staging-axis switch of collectStatus: which list, if any, the path is
appended to when s.Staging is not Unmodified. -/
def stagingTarget : StatusCode → Option ReportField
  | .unmodified => none
  | .modified => some .staged
  | .added => some .added
  | .deleted => some .deleted
  | .renamed => some .renamed
  | .untracked => some .untracked

/-- The worktree-axis switch of collectStatus: worktree Added is routed to
untracked. -/
def worktreeTarget : StatusCode → Option ReportField
  | .unmodified => none
  | .modified => some .modified
  | .added => some .untracked
  | .deleted => some .deleted
  | .renamed => some .renamed
  | .untracked => some .untracked

/-- Append a path at the end of one list of the report. -/
def StatusReport.push (r : StatusReport) (p : String) : Option ReportField → StatusReport
  | none => r
  | some .staged => { r with staged := r.staged ++ [p] }
  | some .modified => { r with modified := r.modified ++ [p] }
  | some .added => { r with added := r.added ++ [p] }
  | some .deleted => { r with deleted := r.deleted ++ [p] }
  | some .renamed => { r with renamed := r.renamed ++ [p] }
  | some .untracked => { r with untracked := r.untracked ++ [p] }

/-- Processing of a single status entry: the staging switch then the worktree
switch, each possibly appending the path. -/
def collectOne (r : StatusReport) (e : PathStatus) : StatusReport :=
  (r.push e.path (stagingTarget e.staging)).push e.path (worktreeTarget e.worktree)

/-- The unsorted lists accumulated by the loop of collectStatus, processing
the status entries in the given order. -/
def collectRaw (l : List PathStatus) : StatusReport :=
  l.foldl collectOne ⟨[], [], [], [], [], []⟩

/-- Executable lexicographic comparison of character lists, mirroring the
byte-wise comparison used by sort.Strings. -/
def lexLe : List Char → List Char → Bool
  | [], _ => true
  | _ :: _, [] => false
  | a :: as, b :: bs => if a = b then lexLe as bs else decide (a < b)

/-- Executable lexicographic comparison of strings. -/
def strLe (a b : String) : Bool := lexLe a.data b.data

/-- Model of sort.Strings: sort lexicographically. -/
def sortStrings (l : List String) : List String :=
  l.insertionSort fun a b => strLe a b = true

/-- Model of collectStatus over the raw entries (the go map iteration order of
the status map is the list order; all lists are sorted at the end). -/
def collectStatus (l : List PathStatus) : StatusReport :=
  let r := collectRaw l
  ⟨sortStrings r.staged, sortStrings r.modified, sortStrings r.added,
    sortStrings r.deleted, sortStrings r.renamed, sortStrings r.untracked⟩

/-- Specification-side characterisation of one entry of the status loop: the
occurrences of the entry path contributed to field c, staging axis first. -/
def entryContrib (c : ReportField) (e : PathStatus) : List String :=
  (if stagingTarget e.staging = some c then [e.path] else []) ++
    (if worktreeTarget e.worktree = some c then [e.path] else [])

/-! ## Staged diff collection (GetStagedFilesDiff) -/

/-- Loop of GetStagedFilesDiff: the diff accumulator grows by the per-path
diff output; the first failing path aborts with the wrapped error message of
ErrUnkwownGitIssue, which interpolates only err.Error(). -/
def getStagedFilesDiffGo (diffOf : String → Except String String)
    (acc : String) : List String → Except String String
  | [] => .ok acc
  | f :: rest =>
    match diffOf f with
    | .error e => .error ("git: unknown git issue: " ++ e)
    | .ok out => getStagedFilesDiffGo diffOf (acc ++ out) rest

/-- Model of GetStagedFilesDiff: the per-path git diff invocation is the
oracle diffOf (ok carries the combined output, error carries err.Error() of
the exec call). -/
def GetStagedFilesDiff (diffOf : String → Except String String)
    (stagedFiles : List String) : Except String String :=
  getStagedFilesDiffGo diffOf "" stagedFiles

/-! ## Author resolution (commit command, go-git variant) -/

/-- Model of getenvDefault: os.Getenv yields the empty string for an unset
variable, and an empty value falls back to the default. The environment is
the oracle envO (none models an unset variable, as distinguished by
os.LookupEnv). -/
def getenvDefault (envO : String → Option String) (key dflt : String) : String :=
  let v := (envO key).getD ""
  if v = "" then dflt else v

/-- Name and email resolved from the environment variables with the fixed
placeholder defaults of the commit command. -/
def authorFallback (envO : String → Option String) : String × String :=
  (getenvDefault envO "GIT_AUTHOR_NAME" "bgit user",
    getenvDefault envO "GIT_AUTHOR_EMAIL" "user@example.com")

/-- The author-override parse of the commit command: split on every left
angle bracket; exactly two parts whose second ends in a right angle bracket
yield (TrimSpace(parts[0]), TrimSuffix(TrimSpace(parts[1]), gt)); any other
shape leaves both components empty. -/
def parseAuthorOverride (s : List Char) : List Char × List Char :=
  match splitOnLT s with
  | [p0, p1] =>
    if hasSuffixGT p1 then (trimChars p0, trimSuffixGT (trimChars p1))
    else ([], [])
  | _ => ([], [])

/-- Author resolution of the commit command: a non-empty override string is
parsed; if either resolved component is empty, both name and email are taken
from the environment/placeholder fallback. -/
def resolveAuthor (envO : String → Option String) (authorStr : String) :
    String × String :=
  let p := if authorStr = "" then ([], []) else parseAuthorOverride authorStr.data
  if p.1 = [] ∨ p.2 = [] then authorFallback envO
  else (String.mk p.1, String.mk p.2)

/-! ## The go-git commit command (commitCmd with heuristic fallback) -/

/-- Externally observable backend calls of the commit command. -/
inductive Event
  | aiCall
  | commitCall
deriving DecidableEq, Repr

/-- Flag values of the commit command. -/
structure Flags where
  message : String
  allowEmpty : Bool
  dryRun : Bool
  noAI : Bool
  authorStr : String
deriving DecidableEq, Repr

/-- Result of one commit invocation. fatal models exitWithError; preview is
the dry-run rendering of the message subject line and the staged path list;
committed carries the created hash and the data printed afterwards. -/
inductive Outcome
  | fatal (msg : String)
  | preview (subject : String) (paths : List String)
  | committed (hash : String) (authorName authorEmail message : String)
      (paths : List String)
deriving DecidableEq, Repr

/-- The auto-generate block of the commit command: an omitted message with
AI enabled uses the heuristic when OPENAI_API_KEY is empty or unset, and
otherwise one AI call whose failure degrades to the heuristic. Returns the
message together with the AI calls made. -/
def synthMessagePart (f : Flags) (stagedPaths : List String)
    (envO : String → Option String) (order : List String)
    (ai : Except String String) : String × List Event :=
  if f.message = "" ∧ f.noAI = false then
    if (envO "OPENAI_API_KEY").getD "" = "" then
      (basicHeuristicMessage order stagedPaths, [])
    else
      match ai with
      | .ok generated => (generated, [.aiCall])
      | .error _ => (basicHeuristicMessage order stagedPaths, [.aiCall])
  else (f.message, [])

/-- Model of the Run function of the go-git commit command. Oracles: envO is
the process environment, order the iteration order of the heuristic exts map,
ai the result of generateAICommitMessage, commitPrim the result of
wt.Commit, readBack whether repo.CommitObject succeeds on the new hash. The
second component records the backend AI and commit calls in order. -/
def commitCmdRun (f : Flags) (stagedPaths : List String)
    (envO : String → Option String) (order : List String)
    (ai : Except String String) (commitPrim : Except String String)
    (readBack : Bool) : Outcome × List Event :=
  if stagedPaths = [] ∧ f.allowEmpty = false then
    (.fatal "no staged changes to commit (use 'bgit add' or --allow-empty)", [])
  else
    let me := synthMessagePart f stagedPaths envO order ai
    if me.1 = "" then
      (.fatal "commit message required (provide -m or enable AI)", me.2)
    else if f.dryRun = true then
      (.preview (firstLine me.1) stagedPaths, me.2)
    else
      let a := resolveAuthor envO f.authorStr
      match commitPrim with
      | .error e => (.fatal ("failed to create commit: " ++ e), me.2 ++ [.commitCall])
      | .ok h =>
        if readBack then (.committed h a.1 a.2 me.1 stagedPaths, me.2 ++ [.commitCall])
        else (.fatal "commit created but retrieval failed", me.2 ++ [.commitCall])

/-! ## Provider fallback (cmd/commit.go with config.Providers) -/

/-- Provider configuration: display name and credential environment
variable. -/
structure ProviderCfg where
  name : String
  envName : String
deriving DecidableEq, Repr

/-- The fixed ordered provider list of the config package. -/
def bgitProviders : List ProviderCfg :=
  [⟨"OpenAI", "OPENAI_API_KEY"⟩, ⟨"OpenRouter", "OPENROUTER_API_KEY"⟩]

/-- Model of commitgen.GenerateCommitMessage: dispatch on the provider name;
a missing credential (os.LookupEnv) yields ErrAPIKeyNotFound, an unknown name
ErrUnkownAIProvider; otherwise the chat-completion oracle of the matching
endpoint is consulted with the fixed prompt. -/
def GenerateCommitMessage (envO : String → Option String)
    (chatOpenAI chatOpenRouter : String → String → Except String String)
    (diff : String) (p : ProviderCfg) : Except String String :=
  let prompt :=
    "Generate a concise conventional commit style message summarizing changes made in this git diff. \n" ++ diff
  if p.name = "OpenAI" then
    match envO p.envName with
    | some key => chatOpenAI prompt key
    | none => .error ("API key not found: 401 " ++ p.envName ++ " not set")
  else if p.name = "OpenRouter" then
    match envO p.envName with
    | some key => chatOpenRouter prompt key
    | none => .error ("API key not found: 401 " ++ p.envName ++ " not set")
  else
    .error ("unknown AI provider: 400 " ++ p.name ++ " is not a valid AI provider")

/-- The provider loop of cmd/commit.go: the first successful provider wins;
generatedMessage stays empty when every attempt fails (or the list is
empty). -/
def providerFallback (gen : ProviderCfg → Except String String) :
    List ProviderCfg → String
  | [] => ""
  | p :: rest =>
    match gen p with
    | .ok s => s
    | .error _ => providerFallback gen rest

/-- Result of one invocation of the provider-based commit command of
cmd/commit.go. noStaged models the early friendly return (exit status 0)
when nothing is staged. -/
inductive OutcomeB
  | fatalB (msg : String)
  | noStaged
  | dryRunB (message : String)
  | committedB (message : String)
deriving DecidableEq, Repr

/-- Model of the Run function of cmd/commit.go: empty staged list returns
early; an omitted message with AI enabled collects the staged diff and runs
the provider fallback chain, and an empty generated message is the fatal
all-providers-failed error; dry-run prints the message without committing. -/
def commitCmdRunB (message0 : String) (dryRun noAI : Bool)
    (stagedFiles : List String) (diffOf : String → Except String String)
    (envO : String → Option String)
    (chatOpenAI chatOpenRouter : String → String → Except String String)
    (providers : List ProviderCfg) (commitPrim : Except String Unit) : OutcomeB :=
  if stagedFiles = [] then .noStaged
  else if message0 = "" ∧ noAI = false then
    match GetStagedFilesDiff diffOf stagedFiles with
    | .error e => .fatalB ("failed to get staged diff: " ++ e)
    | .ok stagedDiff =>
      let generated :=
        providerFallback
          (GenerateCommitMessage envO chatOpenAI chatOpenRouter stagedDiff) providers
      if generated = "" then
        .fatalB "failed to generate commit message with all providers"
      else if dryRun = true then .dryRunB generated
      else
        match commitPrim with
        | .error e => .fatalB ("failed to create commit: " ++ e)
        | .ok _ => .committedB generated
  else if message0 = "" then
    .fatalB "commit message is required. Use -m flag or enable AI generation"
  else if dryRun = true then .dryRunB message0
  else
    match commitPrim with
    | .error e => .fatalB ("failed to create commit: " ++ e)
    | .ok _ => .committedB message0

/-! ## Lemmas: the executable comparator agrees with the lexicographic
order -/

theorem lexLe_iff_not_lex (x : List Char) :
    ∀ y : List Char, lexLe x y = true ↔ ¬ List.Lex (· < ·) y x := by
  induction x with
  | nil =>
    intro y
    exact iff_of_true rfl (List.Lex.not_nil_right _ _)
  | cons a as ih =>
    intro y
    cases y with
    | nil =>
      apply iff_of_false
      · simp [lexLe]
      · exact not_not_intro List.Lex.nil
    | cons b bs =>
      by_cases hab : a = b
      · subst hab
        have h1 : lexLe (a :: as) (a :: bs) = lexLe as bs := by simp [lexLe]
        rw [h1, ih bs, List.Lex.cons_iff]
      · simp only [lexLe, if_neg hab, decide_eq_true_iff]
        constructor
        · intro hlt hlex
          cases hlex with
          | cons h => exact hab rfl
          | rel h => exact absurd hlt (asymm h)
        · intro hnl
          rcases lt_trichotomy a b with h | h | h
          · exact h
          · exact absurd h hab
          · exact absurd (List.Lex.rel h) hnl

theorem strLe_iff_le (a b : String) : strLe a b = true ↔ a ≤ b := by
  rw [String.le_iff_toList_le, ← not_lt]
  exact lexLe_iff_not_lex a.data b.data

instance strLeTotal : IsTotal String fun a b => strLe a b = true :=
  ⟨fun a b => by
    rcases le_total a b with h | h
    · exact Or.inl ((strLe_iff_le a b).mpr h)
    · exact Or.inr ((strLe_iff_le b a).mpr h)⟩

instance strLeTrans : IsTrans String fun a b => strLe a b = true :=
  ⟨fun a b c hab hbc =>
    (strLe_iff_le a c).mpr
      (le_trans ((strLe_iff_le a b).mp hab) ((strLe_iff_le b c).mp hbc))⟩

theorem sortStrings_sorted (l : List String) :
    List.Sorted (· ≤ ·) (sortStrings l) :=
  (List.sorted_insertionSort _ l).imp fun h => (strLe_iff_le _ _).mp h

theorem sortStrings_perm (l : List String) : (sortStrings l).Perm l :=
  List.perm_insertionSort _ l

/-! ## Lemmas: characterisation of the status classifier -/

theorem push_get (r : StatusReport) (p : String) (t : Option ReportField)
    (c : ReportField) :
    (r.push p t).get c = r.get c ++ (if t = some c then [p] else []) := by
  cases t with
  | none => cases c <;> simp [StatusReport.push, StatusReport.get]
  | some f => cases f <;> cases c <;>
      simp [StatusReport.push, StatusReport.get]

theorem collectOne_get (r : StatusReport) (e : PathStatus) (c : ReportField) :
    (collectOne r e).get c = r.get c ++ entryContrib c e := by
  simp [collectOne, push_get, entryContrib, List.append_assoc]

theorem foldl_collectOne_get (c : ReportField) :
    ∀ (l : List PathStatus) (r : StatusReport),
      (l.foldl collectOne r).get c = r.get c ++ (l.map (entryContrib c)).flatten := by
  intro l
  induction l with
  | nil => intro r; simp
  | cons e l ih =>
    intro r
    simp only [List.foldl_cons, List.map_cons, List.flatten_cons]
    rw [ih, collectOne_get, List.append_assoc]

theorem emptyReport_get (c : ReportField) :
    (⟨[], [], [], [], [], []⟩ : StatusReport).get c = [] := by
  cases c <;> rfl

theorem collectRaw_get (l : List PathStatus) (c : ReportField) :
    (collectRaw l).get c = (l.map (entryContrib c)).flatten := by
  rw [collectRaw, foldl_collectOne_get, emptyReport_get, List.nil_append]

theorem collectStatus_get (l : List PathStatus) (c : ReportField) :
    (collectStatus l).get c = sortStrings ((collectRaw l).get c) := by
  cases c <;> rfl

theorem mem_entryContrib {x : String} {c : ReportField} {e : PathStatus}
    (h : x ∈ entryContrib c e) : x = e.path := by
  rcases List.mem_append.mp h with h1 | h1 <;>
    [skip; skip] <;> (revert h1; split <;> intro h1 <;> simp_all)

theorem entryContrib_small {c : ReportField} {e : PathStatus}
    (h : stagingTarget e.staging = none
      ∨ stagingTarget e.staging ≠ worktreeTarget e.worktree) :
    entryContrib c e = [] ∨ entryContrib c e = [e.path] := by
  unfold entryContrib
  by_cases h1 : stagingTarget e.staging = some c <;>
    by_cases h2 : worktreeTarget e.worktree = some c
  · rcases h with h | h
    · rw [h] at h1; cases h1
    · exact absurd (h1.trans h2.symm) h
  · rw [if_pos h1, if_neg h2]; exact Or.inr rfl
  · rw [if_neg h1, if_pos h2]; exact Or.inr rfl
  · rw [if_neg h1, if_neg h2]; exact Or.inl rfl

theorem flatten_contrib_nodup (c : ReportField) :
    ∀ l : List PathStatus, (l.map PathStatus.path).Nodup →
      (∀ e ∈ l, stagingTarget e.staging = none
        ∨ stagingTarget e.staging ≠ worktreeTarget e.worktree) →
      ((l.map (entryContrib c)).flatten).Nodup := by
  intro l
  induction l with
  | nil => intro _ _; simp
  | cons e l ih =>
    intro h1 h2
    simp only [List.map_cons, List.flatten_cons]
    rw [List.nodup_append]
    refine ⟨?_, ?_, ?_⟩
    · rcases entryContrib_small (c := c) (h2 e (List.mem_cons_self e l)) with h | h <;>
        simp [h]
    · exact ih (List.nodup_cons.mp h1).2 fun e' he' => h2 e' (List.mem_cons_of_mem e he')
    · intro x hx hx'
      have hxe : x = e.path := mem_entryContrib hx
      rcases List.mem_flatten.mp hx' with ⟨m, hm, hxm⟩
      rcases List.mem_map.mp hm with ⟨e', he', rfl⟩
      have hxe' : x = e'.path := mem_entryContrib hxm
      have hmem : e.path ∈ l.map PathStatus.path := by
        rw [hxe.symm.trans hxe']
        exact List.mem_map.mpr ⟨e', he', rfl⟩
      exact (List.nodup_cons.mp h1).1 hmem

/-- C2 (amended): every one of the six output lists of collectStatus is
sorted lexicographically; and under the additional assumptions that the
entries carry pairwise distinct paths and that no entry routes its staging
state and its worktree state into the same output list, the output list is
also free of duplicates. (Without the routing assumption duplicates occur,
see the counterexample.) -/
theorem collectStatus_sorted_and_nodup (l : List PathStatus) (c : ReportField) :
    List.Sorted (· ≤ ·) ((collectStatus l).get c)
    ∧ ((l.map PathStatus.path).Nodup →
        (∀ e ∈ l, stagingTarget e.staging = none
          ∨ stagingTarget e.staging ≠ worktreeTarget e.worktree) →
        ((collectStatus l).get c).Nodup) := by
  rw [collectStatus_get, collectRaw_get]
  refine ⟨sortStrings_sorted _, fun h1 h2 => ?_⟩
  exact (sortStrings_perm _).nodup_iff.mpr (flatten_contrib_nodup c l h1 h2)

/-- C2 witness: a concrete two-entry status with distinct paths and
collision-free routing yields a sorted, duplicate-free added list. -/
theorem collectStatus_sorted_and_nodup_witness :
    List.Sorted (· ≤ ·)
      ((collectStatus [⟨"b", .added, .unmodified⟩, ⟨"a", .added, .modified⟩]).get .added)
    ∧ ((collectStatus [⟨"b", .added, .unmodified⟩, ⟨"a", .added, .modified⟩]).get
        .added).Nodup :=
  ⟨(collectStatus_sorted_and_nodup
      [⟨"b", .added, .unmodified⟩, ⟨"a", .added, .modified⟩] .added).1,
    (collectStatus_sorted_and_nodup
      [⟨"b", .added, .unmodified⟩, ⟨"a", .added, .modified⟩] .added).2
      (by decide) (by decide)⟩

/-- C2 counterexample: a single path whose staging state and worktree state
are both Deleted is appended to the deleted list twice, so the output list is
not duplicate-free as the claim states. -/
theorem collectStatus_dup_counterexample :
    (collectStatus [⟨"a", .deleted, .deleted⟩]).get .deleted = ["a", "a"]
    ∧ ¬ ((collectStatus [⟨"a", .deleted, .deleted⟩]).get .deleted).Nodup := by
  decide

/-! ## Lemmas: staged diff collection -/

theorem getStagedFilesDiffGo_error (diffOf : String → Except String String)
    (p : String) (e : String) (hp : diffOf p = .error e) :
    ∀ (pre : List String) (post : List String) (acc : String),
      (∀ q ∈ pre, ∃ s, diffOf q = .ok s) →
      getStagedFilesDiffGo diffOf acc (pre ++ p :: post)
        = .error ("git: unknown git issue: " ++ e) := by
  intro pre
  induction pre with
  | nil =>
    intro post acc _
    simp only [List.nil_append, getStagedFilesDiffGo, hp]
  | cons q pre ih =>
    intro post acc hpre
    obtain ⟨s, hs⟩ := hpre q (List.mem_cons_self q pre)
    simp only [List.cons_append, getStagedFilesDiffGo, hs]
    exact ih post (acc ++ s) fun q' hq' => hpre q' (List.mem_cons_of_mem q hq')

/-- C4 (amended): when the per-path diff query fails for some path, the whole
collection aborts with an error wrapping only the underlying error message of
the exec call (the failing path is not named in it), no diff text is
returned, and the result does not depend on the paths after the failing one
or on their diffs. -/
theorem GetStagedFilesDiff_aborts (diffOf : String → Except String String)
    (pre : List String) (p : String) (post : List String) (e : String)
    (hpre : ∀ q ∈ pre, ∃ s, diffOf q = .ok s) (hp : diffOf p = .error e) :
    GetStagedFilesDiff diffOf (pre ++ p :: post)
      = .error ("git: unknown git issue: " ++ e) :=
  getStagedFilesDiffGo_error diffOf p e hp pre post "" hpre

/-- C4 witness: concrete instantiation of the abort behaviour, with one
successfully diffed path before the failing one and one path after it. -/
theorem GetStagedFilesDiff_aborts_witness :
    GetStagedFilesDiff
      (fun q => if q = "zq" then .error "exit status 128" else .ok "D")
      (["ok.go"] ++ "zq" :: ["later.go"])
      = .error ("git: unknown git issue: " ++ "exit status 128") :=
  GetStagedFilesDiff_aborts
    (fun q => if q = "zq" then .error "exit status 128" else .ok "D")
    ["ok.go"] "zq" ["later.go"] "exit status 128"
    (by intro q hq; rw [List.mem_singleton] at hq; subst hq; exact ⟨"D", rfl⟩)
    rfl

/-- C4 counterexample: the error returned on a per-path diff failure does not
identify the failing path. On the same staged list the same error value is
produced whether the first or the second path fails, and the error message
does not contain either path. -/
theorem GetStagedFilesDiff_error_counterexample :
    GetStagedFilesDiff
      (fun q => if q = "zq" then .error "exit status 128" else .ok "D")
      ["zq", "ar"] = .error ("git: unknown git issue: " ++ "exit status 128")
    ∧ GetStagedFilesDiff
      (fun q => if q = "ar" then .error "exit status 128" else .ok "D")
      ["zq", "ar"] = .error ("git: unknown git issue: " ++ "exit status 128")
    ∧ hasSubstr "git: unknown git issue: exit status 128" "zq" = false
    ∧ hasSubstr "git: unknown git issue: exit status 128" "ar" = false :=
  ⟨rfl, rfl, by decide, by decide⟩

/-! ## Lemmas: the heuristic message -/

theorem pair_order {α : Type} [DecidableEq α] {o : List α} {a b : α}
    (hab : a ≠ b) (hn : o.Nodup) (hsub : ∀ e ∈ o, e = a ∨ e = b)
    (ha : a ∈ o) (hb : b ∈ o) : o = [a, b] ∨ o = [b, a] := by
  match o with
  | [] => cases ha
  | [x] =>
    rw [List.mem_singleton] at ha hb
    exact absurd (ha.trans hb.symm) hab
  | x :: y :: rest =>
    have hrest : rest = [] := by
      rw [List.eq_nil_iff_forall_not_mem]
      intro z hz
      have hzm : z = a ∨ z = b := hsub z (by simp [hz])
      have hx : x = a ∨ x = b := hsub x (by simp)
      have hy : y = a ∨ y = b := hsub y (by simp)
      simp only [List.nodup_cons, List.mem_cons] at hn
      have hxy : x ≠ y := fun h => hn.1 (Or.inl h)
      have hxz : x ≠ z := fun h => hn.1 (Or.inr (h ▸ hz))
      have hyz : y ≠ z := fun h => hn.2.1 (h ▸ hz)
      rcases hx with rfl | rfl <;> rcases hy with rfl | rfl <;>
        rcases hzm with rfl | rfl <;> simp_all
    subst hrest
    have hx : x = a ∨ x = b := hsub x (by simp)
    have hy : y = a ∨ y = b := hsub y (by simp)
    have hxy : x ≠ y := by
      simp only [List.nodup_cons, List.mem_cons] at hn
      exact fun h => hn.1 (Or.inl h)
    rcases hx with rfl | rfl <;> rcases hy with rfl | rfl <;> simp_all

/-- C3 (amended): with the staged paths a.go, b.go, c.py and no usable
provider, the heuristic message is "update 3 paths (...)" with the
parenthetical listing 2 go files and 1 py file in the iteration order of the
Go extension map, which is unspecified: both orders are possible outcomes.
No descending-frequency or first-seen ordering is guaranteed by the code. -/
theorem heuristic_both_orders (order : List String)
    (h : validIterOrder ["a.go", "b.go", "c.py"] order) :
    basicHeuristicMessage order ["a.go", "b.go", "c.py"]
        = "update 3 paths (2 go files, 1 py file)"
    ∨ basicHeuristicMessage order ["a.go", "b.go", "c.py"]
        = "update 3 paths (1 py file, 2 go files)" := by
  obtain ⟨hn, hs, hm⟩ := h
  have hfm : (["a.go", "b.go", "c.py"] : List String).filterMap extOf
      = ["go", "go", "py"] := by decide
  have ha : "go" ∈ order := hm "go" (by rw [hfm]; decide)
  have hb : "py" ∈ order := hm "py" (by rw [hfm]; decide)
  have hsub : ∀ e ∈ order, e = "go" ∨ e = "py" := by
    intro e he
    have h1 := hs e he
    rw [hfm] at h1
    simpa using h1
  rcases pair_order (by decide : ("go" : String) ≠ "py") hn hsub ha hb with
    h | h <;> subst h
  · exact Or.inl (by decide)
  · exact Or.inr (by decide)

/-- C3 witness: the claim theorem applied at the concrete iteration order
go, py. -/
theorem heuristic_both_orders_witness :
    basicHeuristicMessage ["go", "py"] ["a.go", "b.go", "c.py"]
        = "update 3 paths (2 go files, 1 py file)"
    ∨ basicHeuristicMessage ["go", "py"] ["a.go", "b.go", "c.py"]
        = "update 3 paths (1 py file, 2 go files)" :=
  heuristic_both_orders ["go", "py"] (by decide)

/-- C3 counterexample: the iteration order py, go is a legitimate enumeration
of the extension map, and under it the message mentions py strictly before
go, refuting the claimed descending-frequency order (go before py). -/
theorem heuristic_order_counterexample :
    validIterOrder ["a.go", "b.go", "c.py"] ["py", "go"]
    ∧ basicHeuristicMessage ["py", "go"] ["a.go", "b.go", "c.py"]
        = "update 3 paths (1 py file, 2 go files)"
    ∧ mentionsBefore "py" "go"
        (basicHeuristicMessage ["py", "go"] ["a.go", "b.go", "c.py"]) = true
    ∧ mentionsBefore "go" "py"
        (basicHeuristicMessage ["py", "go"] ["a.go", "b.go", "c.py"]) = false := by
  refine ⟨by decide, by decide, by decide, by decide⟩

/-! ## Lemmas: the extension computation -/

theorem lastDotSplit_of_no_dot (l : List Char) (h : '.' ∉ l) :
    lastDotSplit l = none := by
  induction l with
  | nil => rfl
  | cons c rest ih =>
    have hc : c ≠ '.' := fun hc => h (hc ▸ List.mem_cons_self c rest)
    have hr : '.' ∉ rest := fun hr => h (List.mem_cons_of_mem c hr)
    simp [lastDotSplit, ih hr, hc]

theorem lastDotSplit_append_of_some (l : List Char) {r : List Char}
    {x : List Char} (h : lastDotSplit r = some x) :
    lastDotSplit (l ++ r) = some x := by
  induction l with
  | nil => simpa using h
  | cons c rest ih =>
    simp only [List.cons_append, lastDotSplit, List.append_eq, ih]

theorem lastDotSplit_concat_dot (m : List Char) :
    lastDotSplit (m ++ ['.']) = some [] := by
  induction m with
  | nil => rfl
  | cons c rest ih =>
    simp only [List.cons_append, lastDotSplit, List.append_eq, ih]

/-- C8: the extension of a path is the substring after the last dot; a final
dot yields no extension; a dot-free path contributes no extension; and the
heuristic message counts every path, extension or not, in its leading total
(the total is the full length of the staged path list). -/
theorem extension_rules (l e m1 m2 : List Char) (paths order : List String)
    (he : '.' ∉ e) (hne : e ≠ []) (hm1 : '.' ∉ m1) (hp : paths ≠ []) :
    extOf (String.mk (l ++ '.' :: e)) = some (String.mk e)
    ∧ extOf (String.mk m1) = none
    ∧ extOf (String.mk (m2 ++ ['.'])) = none
    ∧ basicHeuristicMessage order paths
        = "update " ++ toString paths.length ++ " paths ("
            ++ String.intercalate ", " (heuristicTop order paths) ++ ")" := by
  refine ⟨?_, ?_, ?_, ?_⟩
  · have hsplit : lastDotSplit (l ++ '.' :: e) = some e := by
      apply lastDotSplit_append_of_some
      simp [lastDotSplit, lastDotSplit_of_no_dot e he]
    cases e with
    | nil => exact absurd rfl hne
    | cons c es => simp [extOf, hsplit]
  · simp [extOf, lastDotSplit_of_no_dot m1 hm1]
  · simp [extOf, lastDotSplit_concat_dot m2]
  · simp [basicHeuristicMessage, hp]

/-- C8 witness: the extension rules evaluated at concrete inputs. -/
theorem extension_rules_witness :
    extOf (String.mk (['a'] ++ '.' :: ['g', 'o'])) = some (String.mk ['g', 'o'])
    ∧ extOf (String.mk ['a', 'b']) = none
    ∧ extOf (String.mk (['x'] ++ ['.'])) = none
    ∧ basicHeuristicMessage ["go"] ["a.go"]
        = "update " ++ toString (["a.go"] : List String).length ++ " paths ("
            ++ String.intercalate ", " (heuristicTop ["go"] ["a.go"]) ++ ")" :=
  extension_rules ['a'] ['g', 'o'] ['a', 'b'] ['x'] ["a.go"] ["go"]
    (by decide) (by decide) (by decide) (by decide)

/-- C9: for a non-empty staged list in which no path yields a countable
extension, the heuristic message is exactly "update N paths ()" with an
empty parenthetical, for every admissible iteration order of the (empty)
extension map; it is not "chore: empty commit". -/
theorem heuristic_empty_parenthetical (paths order : List String)
    (hp : paths ≠ []) (hall : ∀ p ∈ paths, extOf p = none)
    (hv : validIterOrder paths order) :
    basicHeuristicMessage order paths
      = "update " ++ toString paths.length ++ " paths ()" := by
  have hfm : paths.filterMap extOf = [] := List.filterMap_eq_nil_iff.mpr hall
  have ho : order = [] := by
    cases order with
    | nil => rfl
    | cons x xs =>
      have hx := hv.2.1 x (List.mem_cons_self x xs)
      rw [hfm] at hx
      cases hx
  subst ho
  have htop : heuristicTop [] paths = [] := rfl
  rw [basicHeuristicMessage, if_neg hp, htop]
  have h1 : String.intercalate ", " ([] : List String) = "" := rfl
  rw [h1, String.append_empty, String.append_assoc]
  have h2 : (" paths (" : String) ++ ")" = " paths ()" := by decide
  rw [h2]

/-- C9 witness: one extension-free path with the only admissible (empty)
iteration order. -/
theorem heuristic_empty_parenthetical_witness :
    basicHeuristicMessage [] ["ab"]
      = "update " ++ toString (["ab"] : List String).length ++ " paths ()" :=
  heuristic_empty_parenthetical ["ab"] [] (by decide) (by decide) (by decide)

/-! ## Lemmas: author resolution -/

theorem splitOnLT_ne_nil (l : List Char) : splitOnLT l ≠ [] := by
  cases l with
  | nil => simp [splitOnLT]
  | cons c rest =>
    simp only [splitOnLT]
    split
    · simp
    · split <;> simp

theorem splitOnLT_no_lt {l : List Char} (h : '<' ∉ l) : splitOnLT l = [l] := by
  induction l with
  | nil => rfl
  | cons c rest ih =>
    have hc : c ≠ '<' := fun hc => h (hc ▸ List.mem_cons_self c rest)
    have hr : '<' ∉ rest := fun hr => h (List.mem_cons_of_mem c hr)
    simp [splitOnLT, ih hr, hc]

theorem splitOnLT_append {l r : List Char} (h : '<' ∉ l) :
    splitOnLT (l ++ '<' :: r) = l :: splitOnLT r := by
  induction l with
  | nil =>
    simp only [List.nil_append, splitOnLT]
    rcases hs : splitOnLT r with _ | ⟨s, ss⟩
    · exact absurd hs (splitOnLT_ne_nil r)
    · simp
  | cons c rest ih =>
    have hc : c ≠ '<' := fun hc => h (hc ▸ List.mem_cons_self c rest)
    have hr : '<' ∉ rest := fun hr => h (List.mem_cons_of_mem c hr)
    simp only [List.cons_append, splitOnLT, List.append_eq, ih hr]
    simp [hc]

theorem dropWhile_eq_self_of_false {p : Char → Bool} :
    ∀ {l : List Char}, (∀ c ∈ l, p c = false) → l.dropWhile p = l
  | [], _ => rfl
  | c :: rest, h => by
    rw [List.dropWhile_cons, if_neg]
    rw [h c (List.mem_cons_self c rest)]
    simp

theorem trimChars_eq_self {l : List Char} (h : ∀ c ∈ l, wsp c = false) :
    trimChars l = l := by
  unfold trimChars
  rw [dropWhile_eq_self_of_false h,
    dropWhile_eq_self_of_false (fun c hc => h c (List.mem_reverse.mp hc)),
    List.reverse_reverse]

theorem trimSuffixGT_concat (e : List Char) : trimSuffixGT (e ++ ['>']) = e := by
  rw [trimSuffixGT, if_pos (List.getLast?_concat e), List.dropLast_concat]

theorem parseAuthorOverride_wf {n e : List Char} (hn : '<' ∉ n)
    (he : '<' ∉ e) (hws : ∀ c ∈ e, wsp c = false) :
    parseAuthorOverride (n ++ '<' :: (e ++ ['>'])) = (trimChars n, e) := by
  have hlt : '<' ∉ e ++ ['>'] := by
    intro hc
    rcases List.mem_append.mp hc with hc | hc
    · exact he hc
    · rw [List.mem_singleton] at hc; cases hc
  have hgt : hasSuffixGT (e ++ ['>']) = true := by
    simp [hasSuffixGT, List.getLast?_concat]
  have hws2 : ∀ c ∈ e ++ ['>'], wsp c = false := by
    intro c hc
    rcases List.mem_append.mp hc with hc | hc
    · exact hws c hc
    · rw [List.mem_singleton] at hc; subst hc; rfl
  unfold parseAuthorOverride
  rw [splitOnLT_append hn, splitOnLT_no_lt hlt]
  simp only [hgt, if_true]
  rw [trimChars_eq_self hws2, trimSuffixGT_concat]

theorem parseAuthorOverride_no_lt {s : List Char} (h : '<' ∉ s) :
    parseAuthorOverride s = ([], []) := by
  unfold parseAuthorOverride
  rw [splitOnLT_no_lt h]

theorem parseAuthorOverride_no_gt {u v : List Char} (hu : '<' ∉ u)
    (hv : '<' ∉ v) (hlast : v.getLast? ≠ some '>') :
    parseAuthorOverride (u ++ '<' :: v) = ([], []) := by
  have hgt : hasSuffixGT v = false := by simp [hasSuffixGT, hlast]
  unfold parseAuthorOverride
  rw [splitOnLT_append hu, splitOnLT_no_lt hv]
  simp only [hgt, Bool.false_eq_true, if_false]

theorem parseAuthorOverride_two_lt {u v w : List Char} (hu : '<' ∉ u)
    (hv : '<' ∉ v) (hw : '<' ∉ w) :
    parseAuthorOverride (u ++ '<' :: (v ++ '<' :: w)) = ([], []) := by
  unfold parseAuthorOverride
  rw [splitOnLT_append hu, splitOnLT_append hv, splitOnLT_no_lt hw]

theorem resolveAuthor_of_parse_nil (envO : String → Option String)
    (s : String)
    (h : (parseAuthorOverride s.data).1 = [] ∨ (parseAuthorOverride s.data).2 = []) :
    resolveAuthor envO s = authorFallback envO := by
  unfold resolveAuthor
  by_cases hs : s = ""
  · rw [if_pos hs]
    simp
  · rw [if_neg hs, if_pos h]

theorem authorFallback_env (envO : String → Option String) (a b : String)
    (ha : a ≠ "") (hb : b ≠ "") (h1 : envO "GIT_AUTHOR_NAME" = some a)
    (h2 : envO "GIT_AUTHOR_EMAIL" = some b) :
    authorFallback envO = (a, b) := by
  simp [authorFallback, getenvDefault, h1, h2, ha, hb]

theorem authorFallback_unset (envO : String → Option String)
    (h1 : envO "GIT_AUTHOR_NAME" = none) (h2 : envO "GIT_AUTHOR_EMAIL" = none) :
    authorFallback envO = ("bgit user", "user@example.com") := by
  simp [authorFallback, getenvDefault, h1, h2]

theorem resolveAuthor_wf (envO : String → Option String) {n e : List Char}
    (hn : '<' ∉ n) (he : '<' ∉ e) (hws : ∀ c ∈ e, wsp c = false)
    (hne : trimChars n ≠ []) (hee : e ≠ []) :
    resolveAuthor envO (String.mk (n ++ '<' :: (e ++ ['>'])))
      = (String.mk (trimChars n), String.mk e) := by
  have hsne : ¬ (String.mk (n ++ '<' :: (e ++ ['>'])) = "") := by
    intro h
    have h2 := congrArg String.data h
    simp at h2
  unfold resolveAuthor
  rw [if_neg hsne]
  have hd : (String.mk (n ++ '<' :: (e ++ ['>']))).data
      = n ++ '<' :: (e ++ ['>']) := rfl
  rw [hd, parseAuthorOverride_wf hn he hws, if_neg]
  push_neg
  exact ⟨hne, hee⟩

/-- C5: the three-level author precedence. A well-formed override of shape
Name, left bracket, email, right bracket (exactly one left angle bracket and
a trailing right angle bracket) supplies both components, trimmed. A
malformed override is silently rejected: with no left angle bracket the
environment values are used when set; with a second left angle bracket, or
with no trailing right angle bracket, and both author variables unset, the
fixed placeholders are used. -/
theorem author_resolution_precedence
    (envO envU : String → Option String) (n e s1 u v w : List Char)
    (a b : String)
    (hn1 : '<' ∉ n) (he1 : '<' ∉ e) (hws : ∀ c ∈ e, wsp c = false)
    (hn2 : trimChars n ≠ []) (he2 : e ≠ [])
    (hs1 : '<' ∉ s1)
    (hu : '<' ∉ u) (hv : '<' ∉ v) (hw : '<' ∉ w)
    (hvl : v.getLast? ≠ some '>')
    (ha : a ≠ "") (hb : b ≠ "")
    (hv1 : envO "GIT_AUTHOR_NAME" = some a)
    (hv2 : envO "GIT_AUTHOR_EMAIL" = some b)
    (hu1 : envU "GIT_AUTHOR_NAME" = none)
    (hu2 : envU "GIT_AUTHOR_EMAIL" = none) :
    resolveAuthor envO (String.mk (n ++ '<' :: (e ++ ['>'])))
        = (String.mk (trimChars n), String.mk e)
    ∧ resolveAuthor envO (String.mk s1) = (a, b)
    ∧ resolveAuthor envU (String.mk (u ++ '<' :: v))
        = ("bgit user", "user@example.com")
    ∧ resolveAuthor envU (String.mk (u ++ '<' :: (v ++ '<' :: w)))
        = ("bgit user", "user@example.com") := by
  refine ⟨resolveAuthor_wf envO hn1 he1 hws hn2 he2, ?_, ?_, ?_⟩
  · rw [resolveAuthor_of_parse_nil envO (String.mk s1)
      (by rw [show (String.mk s1).data = s1 from rfl,
            parseAuthorOverride_no_lt hs1]; exact Or.inl rfl)]
    exact authorFallback_env envO a b ha hb hv1 hv2
  · rw [resolveAuthor_of_parse_nil envU (String.mk (u ++ '<' :: v))
      (by rw [show (String.mk (u ++ '<' :: v)).data = u ++ '<' :: v from rfl,
            parseAuthorOverride_no_gt hu hv hvl]; exact Or.inl rfl)]
    exact authorFallback_unset envU hu1 hu2
  · rw [resolveAuthor_of_parse_nil envU (String.mk (u ++ '<' :: (v ++ '<' :: w)))
      (by rw [show (String.mk (u ++ '<' :: (v ++ '<' :: w))).data
            = u ++ '<' :: (v ++ '<' :: w) from rfl,
            parseAuthorOverride_two_lt hu hv hw]; exact Or.inl rfl)]
    exact authorFallback_unset envU hu1 hu2

/-- C5 witness: the precedence theorem at a concrete environment and concrete
override strings. -/
theorem author_resolution_precedence_witness :
    resolveAuthor
        (fun k => if k = "GIT_AUTHOR_NAME" then some "Alice"
          else if k = "GIT_AUTHOR_EMAIL" then some "a@ex.io" else none)
        (String.mk (['B', 'o', 'b', ' '] ++ '<' :: (['b', '@', 'x'] ++ ['>'])))
        = (String.mk (trimChars ['B', 'o', 'b', ' ']), String.mk ['b', '@', 'x'])
    ∧ resolveAuthor
        (fun k => if k = "GIT_AUTHOR_NAME" then some "Alice"
          else if k = "GIT_AUTHOR_EMAIL" then some "a@ex.io" else none)
        (String.mk ['B', 'o', 'b']) = ("Alice", "a@ex.io")
    ∧ resolveAuthor (fun _ => none)
        (String.mk (['B', 'o', 'b'] ++ '<' :: ['x', '@', 'y']))
        = ("bgit user", "user@example.com")
    ∧ resolveAuthor (fun _ => none)
        (String.mk (['B', 'o', 'b'] ++ '<' :: (['x'] ++ '<' :: ['y'])))
        = ("bgit user", "user@example.com") :=
  author_resolution_precedence
    (fun k => if k = "GIT_AUTHOR_NAME" then some "Alice"
      else if k = "GIT_AUTHOR_EMAIL" then some "a@ex.io" else none)
    (fun _ => none)
    ['B', 'o', 'b', ' '] ['b', '@', 'x'] ['B', 'o', 'b'] ['B', 'o', 'b']
    ['x', '@', 'y'] ['y'] "Alice" "a@ex.io"
    (by decide) (by decide) (by decide) (by decide) (by decide) (by decide)
    (by decide) (by decide) (by decide) (by decide) (by decide) (by decide)
    (by decide) (by decide) (by decide) (by decide)

/-- C10: the resolved signature is never a mix of sources. Either both
components come from the parsed override with both non-empty, or both come
from the environment/placeholder fallback; in particular the override with
an empty name part (left bracket a at b right bracket) takes both
components from the fallback even though it parses an email. -/
theorem author_no_mixing (envO : String → Option String) (s : String) :
    (resolveAuthor envO s = authorFallback envO
      ∨ (resolveAuthor envO s
            = (String.mk (parseAuthorOverride s.data).1,
                String.mk (parseAuthorOverride s.data).2)
          ∧ (parseAuthorOverride s.data).1 ≠ []
          ∧ (parseAuthorOverride s.data).2 ≠ []))
    ∧ resolveAuthor envO "<a@b>" = authorFallback envO := by
  constructor
  · unfold resolveAuthor
    by_cases hs : s = ""
    · rw [if_pos hs]
      simp
    · rw [if_neg hs]
      by_cases hp : (parseAuthorOverride s.data).1 = []
          ∨ (parseAuthorOverride s.data).2 = []
      · rw [if_pos hp]
        exact Or.inl rfl
      · rw [if_neg hp]
        push_neg at hp
        exact Or.inr ⟨rfl, hp.1, hp.2⟩
  · exact resolveAuthor_of_parse_nil envO "<a@b>" (Or.inl (by decide))

/-! ## Lemmas: the commit command -/

theorem synthMessagePart_trace (f : Flags) (stagedPaths : List String)
    (envO : String → Option String) (order : List String)
    (ai : Except String String) :
    (synthMessagePart f stagedPaths envO order ai).2 = []
    ∨ (synthMessagePart f stagedPaths envO order ai).2 = [Event.aiCall] := by
  unfold synthMessagePart
  by_cases h1 : f.message = "" ∧ f.noAI = false
  · rw [if_pos h1]
    by_cases h2 : (envO "OPENAI_API_KEY").getD "" = ""
    · rw [if_pos h2]
      exact Or.inl rfl
    · rw [if_neg h2]
      cases ai <;> simp
  · rw [if_neg h1]
    exact Or.inl rfl

theorem commitCmdRun_cases (f : Flags) (stagedPaths : List String)
    (envO : String → Option String) (order : List String)
    (ai : Except String String) (commitPrim : Except String String)
    (readBack : Bool) (hd : f.dryRun = true) :
    commitCmdRun f stagedPaths envO order ai commitPrim readBack
        = (.fatal "no staged changes to commit (use 'bgit add' or --allow-empty)", [])
    ∨ commitCmdRun f stagedPaths envO order ai commitPrim readBack
        = (.fatal "commit message required (provide -m or enable AI)",
            (synthMessagePart f stagedPaths envO order ai).2)
    ∨ commitCmdRun f stagedPaths envO order ai commitPrim readBack
        = (.preview (firstLine (synthMessagePart f stagedPaths envO order ai).1)
              stagedPaths,
            (synthMessagePart f stagedPaths envO order ai).2) := by
  unfold commitCmdRun
  by_cases hA : stagedPaths = [] ∧ f.allowEmpty = false
  · rw [if_pos hA]
    exact Or.inl rfl
  · rw [if_neg hA]
    dsimp only
    by_cases h1 : (synthMessagePart f stagedPaths envO order ai).1 = ""
    · rw [if_pos h1]
      exact Or.inr (Or.inl rfl)
    · rw [if_neg h1, if_pos hd]
      exact Or.inr (Or.inr rfl)

/-- C7: with dryRun set, the commit command never performs the backend
commit call (the event trace contains no commit call whatever the staged
paths, flags, environment and oracles are), and its outcome is either one of
the two pre-commit fatal errors or the dry-run rendering of the synthesized
message subject line together with the staged path list. -/
theorem dry_run_never_commits (f : Flags) (stagedPaths : List String)
    (envO : String → Option String) (order : List String)
    (ai : Except String String) (commitPrim : Except String String)
    (readBack : Bool) (hd : f.dryRun = true) :
    Event.commitCall ∉ (commitCmdRun f stagedPaths envO order ai commitPrim readBack).2
    ∧ ((commitCmdRun f stagedPaths envO order ai commitPrim readBack).1
          = .fatal "no staged changes to commit (use 'bgit add' or --allow-empty)"
      ∨ (commitCmdRun f stagedPaths envO order ai commitPrim readBack).1
          = .fatal "commit message required (provide -m or enable AI)"
      ∨ (commitCmdRun f stagedPaths envO order ai commitPrim readBack).1
          = .preview (firstLine (synthMessagePart f stagedPaths envO order ai).1)
              stagedPaths) := by
  rcases commitCmdRun_cases f stagedPaths envO order ai commitPrim readBack hd with
    h | h | h <;> rw [h] <;> constructor
  · simp
  · exact Or.inl rfl
  · rcases synthMessagePart_trace f stagedPaths envO order ai with ht | ht <;>
      rw [ht] <;> simp
  · exact Or.inr (Or.inl rfl)
  · rcases synthMessagePart_trace f stagedPaths envO order ai with ht | ht <;>
      rw [ht] <;> simp
  · exact Or.inr (Or.inr rfl)

/-- C7 witness: a concrete dry-run invocation with a provided message and a
commit oracle that would succeed still performs no commit call and renders
the preview. -/
theorem dry_run_never_commits_witness :
    Event.commitCall ∉ (commitCmdRun ⟨"msg", false, true, false, ""⟩ ["a.go"]
        (fun _ => none) [] (.error "e") (.ok "h") true).2
    ∧ ((commitCmdRun ⟨"msg", false, true, false, ""⟩ ["a.go"]
          (fun _ => none) [] (.error "e") (.ok "h") true).1
          = .fatal "no staged changes to commit (use 'bgit add' or --allow-empty)"
      ∨ (commitCmdRun ⟨"msg", false, true, false, ""⟩ ["a.go"]
          (fun _ => none) [] (.error "e") (.ok "h") true).1
          = .fatal "commit message required (provide -m or enable AI)"
      ∨ (commitCmdRun ⟨"msg", false, true, false, ""⟩ ["a.go"]
          (fun _ => none) [] (.error "e") (.ok "h") true).1
          = .preview (firstLine (synthMessagePart ⟨"msg", false, true, false, ""⟩
              ["a.go"] (fun _ => none) [] (.error "e")).1) ["a.go"]) :=
  dry_run_never_commits ⟨"msg", false, true, false, ""⟩ ["a.go"]
    (fun _ => none) [] (.error "e") (.ok "h") true rfl

/-- C6: with nothing staged and allow-empty unset, the commit command fails
immediately with the distinct validation error, before any AI or backend
commit call (the event trace is empty; the command performs no diff
collection at all), and the error message names both remedies. -/
theorem empty_staged_validation (f : Flags) (stagedPaths : List String)
    (envO : String → Option String) (order : List String)
    (ai : Except String String) (commitPrim : Except String String)
    (readBack : Bool) (hs : stagedPaths = []) (ha : f.allowEmpty = false) :
    commitCmdRun f stagedPaths envO order ai commitPrim readBack
      = (.fatal "no staged changes to commit (use 'bgit add' or --allow-empty)", [])
    ∧ hasSubstr "no staged changes to commit (use 'bgit add' or --allow-empty)"
        "bgit add" = true
    ∧ hasSubstr "no staged changes to commit (use 'bgit add' or --allow-empty)"
        "--allow-empty" = true := by
  refine ⟨?_, by decide, by decide⟩
  unfold commitCmdRun
  rw [if_pos ⟨hs, ha⟩]

/-- C6 witness: the validation failure at a concrete invocation. -/
theorem empty_staged_validation_witness :
    commitCmdRun ⟨"", false, false, false, ""⟩ [] (fun _ => none) []
        (.ok "m") (.ok "h") true
      = (.fatal "no staged changes to commit (use 'bgit add' or --allow-empty)", [])
    ∧ hasSubstr "no staged changes to commit (use 'bgit add' or --allow-empty)"
        "bgit add" = true
    ∧ hasSubstr "no staged changes to commit (use 'bgit add' or --allow-empty)"
        "--allow-empty" = true :=
  empty_staged_validation ⟨"", false, false, false, ""⟩ [] (fun _ => none) []
    (.ok "m") (.ok "h") true rfl rfl

/-! ## Lemmas: the provider-fallback commit command -/

theorem providerFallback_all_fail (gen : ProviderCfg → Except String String) :
    ∀ ps : List ProviderCfg, (∀ p ∈ ps, ∃ e, gen p = .error e) →
      providerFallback gen ps = "" := by
  intro ps
  induction ps with
  | nil => intro _; rfl
  | cons p rest ih =>
    intro h
    obtain ⟨e, he⟩ := h p (List.mem_cons_self p rest)
    simp only [providerFallback, he]
    exact ih fun q hq => h q (List.mem_cons_of_mem p hq)

/-- C1 (code evaluated at the failing input): in the provider-list commit
command, when no provider credential is set (or the provider list is empty),
an omitted message makes the invocation fail with the fatal
all-providers-failed error instead of degrading to the deterministic
heuristic message, even though the staged diff was collected successfully
and the heuristic is available and non-empty; so message synthesis does
return an error for the condition that no AI provider is available. -/
theorem providers_exhausted_fatal (envO : String → Option String)
    (diffOf : String → Except String String)
    (chatOpenAI chatOpenRouter : String → String → Except String String)
    (stagedFiles : List String) (commitPrim : Except String Unit) (d : String)
    (order : List String)
    (h1 : envO "OPENAI_API_KEY" = none) (h2 : envO "OPENROUTER_API_KEY" = none)
    (hs : stagedFiles ≠ [])
    (hdiff : GetStagedFilesDiff diffOf stagedFiles = .ok d) :
    commitCmdRunB "" false false stagedFiles diffOf envO chatOpenAI
        chatOpenRouter bgitProviders commitPrim
      = .fatalB "failed to generate commit message with all providers"
    ∧ commitCmdRunB "" false false stagedFiles diffOf envO chatOpenAI
        chatOpenRouter [] commitPrim
      = .fatalB "failed to generate commit message with all providers"
    ∧ basicHeuristicMessage order stagedFiles ≠ "" := by
  have hfail : ∀ p ∈ bgitProviders,
      ∃ e, GenerateCommitMessage envO chatOpenAI chatOpenRouter d p
        = .error e := by
    intro p hp
    rcases List.mem_cons.mp hp with rfl | hp
    · refine ⟨"API key not found: 401 " ++ "OPENAI_API_KEY" ++ " not set", ?_⟩
      unfold GenerateCommitMessage
      rw [if_pos rfl]
      dsimp only
      rw [h1]
    · rcases List.mem_singleton.mp hp with rfl
      refine ⟨"API key not found: 401 " ++ "OPENROUTER_API_KEY" ++ " not set", ?_⟩
      unfold GenerateCommitMessage
      rw [if_neg (by decide), if_pos rfl]
      dsimp only
      rw [h2]
  have hgen : providerFallback
      (GenerateCommitMessage envO chatOpenAI chatOpenRouter d) bgitProviders
      = "" := providerFallback_all_fail _ bgitProviders hfail
  refine ⟨?_, ?_, ?_⟩
  · unfold commitCmdRunB
    rw [if_neg hs, if_pos ⟨rfl, rfl⟩]
    simp only [hdiff, hgen]
    simp
  · unfold commitCmdRunB
    rw [if_neg hs, if_pos ⟨rfl, rfl⟩]
    simp only [hdiff, providerFallback]
    simp
  · unfold basicHeuristicMessage
    rw [if_neg hs]
    intro h
    have h2 := congrArg String.data h
    rw [String.data_append] at h2
    simp at h2

/-- C1 witness: concrete invocation with both credential variables unset. -/
theorem providers_exhausted_fatal_witness :
    commitCmdRunB "" false false ["a.go"] (fun _ => .ok "d") (fun _ => none)
        (fun _ _ => .ok "m") (fun _ _ => .ok "m") bgitProviders (.ok ())
      = .fatalB "failed to generate commit message with all providers"
    ∧ commitCmdRunB "" false false ["a.go"] (fun _ => .ok "d") (fun _ => none)
        (fun _ _ => .ok "m") (fun _ _ => .ok "m") [] (.ok ())
      = .fatalB "failed to generate commit message with all providers"
    ∧ basicHeuristicMessage ["go"] ["a.go"] ≠ "" :=
  providers_exhausted_fatal (fun _ => none) (fun _ => .ok "d")
    (fun _ _ => .ok "m") (fun _ _ => .ok "m") ["a.go"] (.ok ()) "d" ["go"]
    rfl rfl (by decide) rfl

end Bgit
